import Mathlib

/-!
Shallow embedding of the core transaction-ingestion pipeline of the
crypto-wallet-transaction-tracker repository
(apps/backend/src/transaction/transaction.service.ts,
apps/backend/src/wallet/wallet.service.ts,
apps/backend/src/config/network.config.ts), with theorems settling the
frozen claims about token-transfer detection, token-amount formatting,
pagination/filtering, the two fetch strategies, cache reconciliation and
error handling.

JavaScript numbers that only ever hold integers are modelled as Int/Nat;
JavaScript bigint is modelled as Nat (all values in scope are non-negative);
strings are Lean Strings; `null`/`undefined`-able values are Option; a
`try`/`catch` around an external call is modelled by an `Except Unit`
outcome supplied by the environment.
-/

namespace CryptoTracker

/-- Transaction status, source type `'success' | 'failed'`. -/
inductive TxStatus where
  | success
  | failed
deriving Repr, DecidableEq

/-- `TokenTransfer` sub-record of a `TransactionResponse`
(packages/types/src/index.ts). -/
structure TokenTransfer where
  contractAddress : String
  tokenName : Option String
  tokenSymbol : Option String
  tokenDecimals : Nat
  amount : String
  amountFormatted : String
deriving Repr, DecidableEq

/-- Normalized in-flight transaction (`TransactionResponse`,
packages/types/src/index.ts).  `from` and `to` are Lean keywords /
near-keywords, hence `fromAddr` / `toAddr`. -/
structure TransactionResponse where
  hash : String
  fromAddr : String
  toAddr : String
  value : String
  blockNumber : Int
  gasUsed : Option String
  gasPrice : Option String
  timestamp : Int
  status : TxStatus
  tokenTransfer : Option TokenTransfer := none
deriving Repr, DecidableEq

/-- One event log of a receipt (`ethers.Log`): emitting contract address,
topic list, data payload (`none` models a null/absent data field). -/
structure LogEntry where
  address : String
  topics : List String
  data : Option String
deriving Repr, DecidableEq

/-- Transaction receipt: logs, status (`none` models null), gasUsed. -/
structure Receipt where
  logs : List LogEntry
  status : Option Nat
  gasUsed : Nat
deriving Repr, DecidableEq

/-- The canonical ERC-20 `Transfer(address,address,uint256)` event
signature hash (`TRANSFER_EVENT_SIGNATURE` in both services). -/
def TRANSFER_EVENT_SIGNATURE : String :=
  "0xddf252ad1be2c89b69c2b068fc378daa952ba7f163c4a11628f55a4df523b3ef"

/-- `s.startsWith(p)` computed on the underlying character lists (the
built-in `String.startsWith` is implemented with byte positions and does
not reduce inside the kernel). -/
def strStartsWith (s p : String) : Bool :=
  p.toList.isPrefixOf s.toList

/-- `s.toLowerCase()` computed on the underlying character lists (same
reduction concern as above; the addresses and hex strings in scope are
ASCII, where JavaScript `toLowerCase` and `Char.toLower` agree). -/
def strToLower (s : String) : String :=
  String.mk (s.toList.map Char.toLower)

/-- Hex digit test (0-9, a-f, A-F). -/
def isHexDigit (c : Char) : Bool :=
  c.isDigit || (('a' ≤ c) && (c ≤ 'f')) || (('A' ≤ c) && (c ≤ 'F'))

/-- Numeric value of a hex digit. -/
def hexVal (c : Char) : Nat :=
  if c.isDigit then c.toNat - '0'.toNat
  else if ('a' ≤ c) && (c ≤ 'f') then c.toNat - 'a'.toNat + 10
  else c.toNat - 'A'.toNat + 10

/-- Parse a non-empty list of hex digits (most significant first). -/
def parseHexDigits (cs : List Char) : Option Nat :=
  if cs.isEmpty then none
  else if cs.all isHexDigit then
    some (cs.foldl (fun acc c => acc * 16 + hexVal c) 0)
  else none

/-- Parse a non-empty list of decimal digits. -/
def parseDecDigits (cs : List Char) : Option Nat :=
  if cs.isEmpty then none
  else if cs.all Char.isDigit then
    some (cs.foldl (fun acc c => acc * 10 + (c.toNat - '0'.toNat)) 0)
  else none

/-- Models JavaScript `BigInt(string)` on the string shapes that occur in
this code base: a `0x`/`0X`-prefixed hex literal or a plain decimal
literal; any other shape throws, modelled as `none`.  (Octal/binary
prefixes and surrounding whitespace never occur here and are not
modelled.) -/
def parseBigInt (s : String) : Option Nat :=
  if strStartsWith s "0x" || strStartsWith s "0X" then
    parseHexDigits (s.drop 2).toList
  else
    parseDecDigits s.toList

/-- Models `ethers.getAddress`: succeeds exactly on a `0x`-prefixed
40-hex-digit string, i.e. a 20-byte address.  The returned value is the
lowercased hex form; the EIP-55 checksum capitalization performed by the
real library is abstracted away (it is a bijective re-casing of the same
20 bytes). -/
def getAddress (s : String) : Option String :=
  if strStartsWith s "0x" && (s.drop 2).length = 40
      && (s.drop 2).toList.all isHexDigit then
    some (strToLower s)
  else none

/-- Result of token-transfer detection. -/
structure TransferInfo where
  contractAddress : String
  fromAddr : String
  toAddr : String
  amount : Nat
deriving Repr, DecidableEq

/-- Models JavaScript `s.slice(-40)`: the last 40 characters (the whole
string when it is shorter). -/
def sliceLast40 (s : String) : String :=
  String.mk (s.toList.drop (s.length - 40))

/-- The body of the `for` loop of `detectTokenTransfer` applied to one
log that already matched the topic test: extract from/to from topics 1
and 2 (strip `0x`, take the low 20 bytes, `ethers.getAddress`), parse the
data payload with `BigInt`.  Any parse error is caught by the source's
`try`/`catch` and yields `none` (skip this log). -/
def parseTransferLog (log : LogEntry) : Option TransferInfo :=
  match log.topics with
  | [_, fromTopic, toTopic] =>
    let fromHex := if strStartsWith fromTopic "0x" then fromTopic.drop 2 else fromTopic
    let toHex := if strStartsWith toTopic "0x" then toTopic.drop 2 else toTopic
    match getAddress ("0x" ++ sliceLast40 fromHex),
          getAddress ("0x" ++ sliceLast40 toHex) with
    | some fromAddr, some toAddr =>
      let dataHex := match log.data with
        | none => "0x0"
        | some s => if s = "" then "0x0" else s
      match parseBigInt dataHex with
      | some amount =>
        some { contractAddress := log.address, fromAddr, toAddr, amount }
      | none => none
    | _, _ => none
  | _ => none

/-- Topic test of `detectTokenTransfer`: exactly 3 topics and the first
one is the Transfer signature hash. -/
def isTransferLog (log : LogEntry) : Bool :=
  log.topics.length = 3 &&
    (log.topics.headD "") = TRANSFER_EVENT_SIGNATURE

/-- Scan of the log list of `detectTokenTransfer`: return the parsed
record of the first log that passes the topic test and parses; a log
that fails either is skipped. -/
def scanLogs : List LogEntry → Option TransferInfo
  | [] => none
  | log :: rest =>
    if isTransferLog log then
      match parseTransferLog log with
      | some info => some info
      | none => scanLogs rest
    else scanLogs rest

/-- `detectTokenTransfer(receipt)` (transaction.service.ts lines 30-74;
the identical copy in wallet.service.ts lines 31-80): `null` receipt or
empty log list gives `null`; otherwise scan the logs. -/
def detectTokenTransfer (receipt : Option Receipt) : Option TransferInfo :=
  match receipt with
  | none => none
  | some r => if r.logs.isEmpty then none else scanLogs r.logs

/-- Restatement of the detection algorithm in the spec's words (§4.2):
among the logs, find the first one whose topic list has exactly 3
entries, whose first topic is the canonical Transfer signature hash and
which parses; return its parsed record, else none. -/
def detectTokenTransferSpec (receipt : Option Receipt) : Option TransferInfo :=
  match receipt with
  | none => none
  | some r =>
    (r.logs.filter (fun log => isTransferLog log && (parseTransferLog log).isSome)).head?
      |>.bind parseTransferLog

/-! ### Token-amount formatting (`ethers.formatUnits` / `ethers.formatEther`)

The services format raw token amounts with `ethers.formatUnits(value,
decimals)` (ethers v6).  For a non-negative `value` that function renders
the exact decimal string of `value / 10^decimals`: the decimal digit
string of `value` is split `decimals` digits from the right into a whole
part and a fraction part, the fraction keeps at least one digit and has
its remaining trailing zeros removed, and with `decimals = 0` no decimal
point is printed.  The embedding computes the same whole/fraction split
arithmetically. -/

/-- Most-significant-first list of the low `d` decimal digits of `n`. -/
def padDigits : Nat → Nat → List Nat
  | 0, _ => []
  | d + 1, n => padDigits d (n / 10) ++ [n % 10]

/-- Remove trailing zero digits. -/
def trimTrailingZeros (l : List Nat) : List Nat :=
  (l.reverse.dropWhile (fun x => x == 0)).reverse

/-- The fraction digit list printed by `formatUnits`: the `decimals`
low digits of `value`, trailing zeros trimmed, at least one digit kept. -/
def fracDigitsOf (value decimals : Nat) : List Nat :=
  let t := trimTrailingZeros (padDigits decimals (value % 10 ^ decimals))
  if t.isEmpty then [0] else t

/-- Whole part and fraction digits produced by `formatUnits`. -/
def formatUnitsParts (value decimals : Nat) : Nat × List Nat :=
  (value / 10 ^ decimals, fracDigitsOf value decimals)

/-- `ethers.formatUnits(value, decimals)` for non-negative `value`. -/
def formatUnits (value decimals : Nat) : String :=
  if decimals = 0 then toString value
  else
    let p := formatUnitsParts value decimals
    toString p.1 ++ "." ++ String.mk (p.2.map Nat.digitChar)

/-- `ethers.formatEther(value)` = `formatUnits(value, 18)`. -/
def formatEther (value : Nat) : String :=
  formatUnits value 18

/-- Exact rational value of a fraction digit list: `[d1, d2, ...]`
denotes `0.d1 d2 ...`. -/
def fracValue : List Nat → ℚ
  | [] => 0
  | d :: rest => (d + fracValue rest) / 10

/-- Exact rational value denoted by a (whole, fraction digits) pair. -/
def partsValue (p : Nat × List Nat) : ℚ :=
  p.1 + fracValue p.2

/-! ### Token metadata and enrichment -/

/-- Result of `getTokenMetadata`: each field is present exactly when the
corresponding contract call (issued via `Promise.allSettled`) fulfilled. -/
structure TokenMetadata where
  name : Option String
  symbol : Option String
  decimals : Option Nat
deriving Repr, DecidableEq

/-- `getTokenMetadata` (wallet.service.ts lines 82-111, same in
transaction.service.ts): the environment supplies either the merged
`allSettled` outcomes (`.ok`) or a synchronous throw (`.error`), which
the source's `catch` turns into `{}` — all fields absent. -/
def getTokenMetadata (outcome : Except Unit TokenMetadata) : TokenMetadata :=
  match outcome with
  | .ok m => m
  | .error _ => { name := none, symbol := none, decimals := none }

/-- The token-attachment block shared by `enrichTransactionWithTokenInfo`
and both paths of `getTransactionByHash`: detect a transfer in the
receipt; if found, resolve metadata, default decimals to 18, format the
amount, and set the `tokenTransfer` field; otherwise return the
transaction unchanged.  (The source's inner `catch` branch, reachable
only if formatting threw, builds the identical record with name/symbol
absent and decimals 18 — the same record the `metadata = .error` case
produces here.) -/
def attachTokenTransfer (receipt : Option Receipt)
    (metadata : Except Unit TokenMetadata)
    (resp : TransactionResponse) : TransactionResponse :=
  match detectTokenTransfer receipt with
  | none => resp
  | some info =>
    let md := getTokenMetadata metadata
    let decimals := md.decimals.getD 18
    { resp with tokenTransfer := some {
        contractAddress := info.contractAddress,
        tokenName := md.name,
        tokenSymbol := md.symbol,
        tokenDecimals := decimals,
        amount := toString info.amount,
        amountFormatted := formatUnits info.amount decimals } }

/-- External outcomes consumed by one run of
`enrichTransactionWithTokenInfo`. -/
structure EnrichEnv where
  /-- `provider.getTransactionReceipt(tx.hash).catch(() => null)`:
  a fetch failure and a null receipt both arrive as `none`. -/
  receipt : Option Receipt
  /-- outcome of the metadata resolution stage. -/
  metadata : Except Unit TokenMetadata

/-- `enrichTransactionWithTokenInfo(tx, chainId)` (wallet.service.ts
lines 113-174): no receipt — transaction unchanged; otherwise run
detection and, on a hit, attach the token-transfer record. -/
def enrichTransactionWithTokenInfo (env : EnrichEnv)
    (tx : TransactionResponse) : TransactionResponse :=
  match env.receipt with
  | none => tx
  | some receipt => attachTokenTransfer (some receipt) env.metadata tx

/-! ### Pagination / filter engine (`getTransactions`) -/

/-- Direction filter, source type `'sent' | 'received'` (absent = no
filter). -/
inductive TxDirection where
  | sent
  | received
deriving Repr, DecidableEq

/-- The direction filter of `getTransactions` (wallet.service.ts lines
296-304), applied to the full candidate list: `sent` keeps transactions
whose lowercased `from` equals the (already lowercased) wallet address,
`received` compares `to`, no filter keeps everything. -/
def filterByType (typ : Option TxDirection) (normalizedAddress : String)
    (txs : List TransactionResponse) : List TransactionResponse :=
  match typ with
  | some .sent => txs.filter (fun tx => strToLower tx.fromAddr == normalizedAddress)
  | some .received => txs.filter (fun tx => strToLower tx.toAddr == normalizedAddress)
  | none => txs

/-- Shape of the `getTransactions` response envelope. -/
structure PageResult where
  transactions : List TransactionResponse
  total : Nat
  page : Nat
  limit : Nat
  totalPages : Nat
  hasMore : Bool
deriving Repr, DecidableEq

/-- The pagination step of `getTransactions` (wallet.service.ts lines
306-310): `total` is the filtered count, `totalPages =
Math.ceil(total / limit)` (for naturals: `(total + limit - 1) / limit`),
`hasMore = page < totalPages`, and the page slice is
`allTransactions.slice(skip, skip + limit)` with `skip =
(page - 1) * limit`. -/
def paginate (allTransactions : List TransactionResponse)
    (limit page : Nat) : PageResult :=
  let total := allTransactions.length
  let totalPages := (total + limit - 1) / limit
  let hasMore := decide (page < totalPages)
  let skip := (page - 1) * limit
  { transactions := (allTransactions.drop skip).take limit,
    total, page, limit, totalPages, hasMore }

/-- Filter-then-paginate core of `getTransactions` (wallet.service.ts
lines 296-310): the direction filter runs on the full candidate set
before any slicing.  Enrichment of the returned page (lines 312-334)
replaces transactions in place and is modelled separately. -/
def getTransactionsCore (txs : List TransactionResponse)
    (normalizedAddress : String) (typ : Option TxDirection)
    (limit page : Nat) : PageResult :=
  paginate (filterByType typ normalizedAddress txs) limit page

/-! ### Indexer (Etherscan) fetch -/

/-- One raw entry of the indexer's `result` array, with JSON numeric
strings already decoded (`value` via `BigInt`, `blockNumber`/`timeStamp`
via `parseInt`). -/
structure RawEtherscanTx where
  hash : String
  fromAddr : String
  toAddr : Option String
  value : Nat
  blockNumber : Int
  gasUsed : Option String
  gasPrice : Option String
  timeStamp : Int
  isError : Option String
deriving Repr, DecidableEq

/-- Shape of the indexer response's `result` field: a string (e.g. a
rate-limit message), an array, or absent/null. -/
inductive EtherscanResult where
  | stringResult (s : String)
  | listResult (txs : List RawEtherscanTx)
  | absent
deriving Repr, DecidableEq

/-- Decoded indexer response body. -/
structure EtherscanData where
  /-- `data.status === '0' || data.status === 0` — the API's error /
  rate-limit / no-results signal. -/
  statusIsZero : Bool
  message : Option String
  result : EtherscanResult
deriving Repr, DecidableEq

/-- The per-entry normalization of `fetchTransactionsFromEtherscan`
(transaction.service.ts lines 356-368): status derives from the
`isError` flag, the wei value is formatted with `ethers.formatEther`,
a missing `to` becomes the empty string. -/
def mapEtherscanTx (tx : RawEtherscanTx) : TransactionResponse :=
  { hash := tx.hash
    fromAddr := tx.fromAddr
    toAddr := tx.toAddr.getD ""
    value := formatEther tx.value
    blockNumber := tx.blockNumber
    gasUsed := tx.gasUsed
    gasPrice := tx.gasPrice
    timestamp := tx.timeStamp
    status := if tx.isError == some "0" then .success else .failed }

/-- `fetchTransactionsFromEtherscan(address, limit, chainId)`
(transaction.service.ts lines 319-374; the identical copy in
wallet.service.ts lines 447-495).  `apiKey` is the configured
`ETHERSCAN_API_KEY` (absent = falsy), `fetchOutcome` is the
`fetch`/`json` outcome (`.error` = any thrown network/decode error,
caught by the source and turned into `[]`).  The address, chain id and
URL only select which response arrives and are not parameters of the
pure result. -/
def fetchTransactionsFromEtherscan (apiKey : Option String)
    (fetchOutcome : Except Unit EtherscanData)
    (limit : Nat) : List TransactionResponse :=
  match apiKey with
  | none => []
  | some _ =>
    match fetchOutcome with
    | .error _ => []
    | .ok data =>
      if data.statusIsZero then []
      else
        match data.result with
        | .stringResult _ => []
        | .absent => []
        | .listResult txs =>
          if txs.isEmpty then []
          else (txs.take limit).map mapEtherscanTx

/-! ### Block-scan fetch -/

/-- A transaction as delivered inside a block (`getBlock(n, true)`);
`fromAddr`/`toAddr` are `none` when the field is missing or null
(`isValidTransaction` checks their presence, the subsequent `tx.from &&
tx.to` checks their truthiness). -/
structure ChainTx where
  hash : String
  fromAddr : Option String
  toAddr : Option String
  value : Nat
  gasPrice : Option Nat
deriving Repr, DecidableEq

/-- A fetched block: timestamp (the source applies `|| 0`, so a null
timestamp arrives as `0`) and optional transaction list. -/
structure ChainBlock where
  timestamp : Int
  transactions : Option (List ChainTx)
deriving Repr, DecidableEq

/-- External world consumed by one run of the block scan: the
`getBlockNumber` outcome (`.error` = throw/timeout), the per-block fetch
outcomes and the per-receipt fetch outcomes (`.error` = throw/timeout,
`.ok none` = null). -/
structure ScanEnv where
  blockNumberOutcome : Except Unit Int
  getBlock : Int → Except Unit (Option ChainBlock)
  getReceipt : String → Except Unit (Option Receipt)

/-- `isValidTransaction(tx) && tx.from && tx.to`: both address fields
present and truthy (non-empty). -/
def chainTxUsable (tx : ChainTx) : Option (String × String) :=
  match tx.fromAddr, tx.toAddr with
  | some f, some t => if f != "" && t != "" then some (f, t) else none
  | _, _ => none

/-- `sort((a, b) => b.timestamp - a.timestamp)`: descending timestamp. -/
def sortByTimestampDesc (txs : List TransactionResponse) : List TransactionResponse :=
  txs.insertionSort (fun a b => b.timestamp ≤ a.timestamp)

/-- `maxBlocksToCheck` (transaction.service.ts line 382). -/
def maxBlocksToCheck : Nat := 5000

/-- `blockStep = Math.max(1, Math.floor(maxBlocksToCheck / 1000))`
(transaction.service.ts line 397). -/
def blockStep : Nat := max 1 (maxBlocksToCheck / 1000)

/-- The offsets visited by `for (let i = 0; i < maxBlocksToCheck; i +=
blockStep)`: start 0, step `blockStep`, `⌈maxBlocksToCheck /
blockStep⌉` iterations. -/
def blockOffsets : List Nat :=
  List.range' 0 ((maxBlocksToCheck + blockStep - 1) / blockStep) blockStep

/-- The inner loop of the block scan (transaction.service.ts lines
416-452): walk the block's transactions; stop as soon as `limit`
results are collected; keep transactions with usable from/to where the
wallet address matches either side; a failed receipt fetch skips the
transaction (`catch { continue }`). -/
def scanTxsInBlock (env : ScanEnv) (address : String) (limit : Nat)
    (blockNumber : Int) (blockTimestamp : Int) :
    List ChainTx → List TransactionResponse → List TransactionResponse
  | [], acc => acc
  | tx :: rest, acc =>
    if acc.length ≥ limit then acc
    else
      match chainTxUsable tx with
      | none => scanTxsInBlock env address limit blockNumber blockTimestamp rest acc
      | some ft =>
        if strToLower ft.1 == address || strToLower ft.2 == address then
          match env.getReceipt tx.hash with
          | .error _ =>
            scanTxsInBlock env address limit blockNumber blockTimestamp rest acc
          | .ok receipt =>
            scanTxsInBlock env address limit blockNumber blockTimestamp rest
              (acc ++ [{
                hash := tx.hash
                fromAddr := ft.1
                toAddr := ft.2
                value := formatEther tx.value
                blockNumber := blockNumber
                gasUsed := receipt.map (fun r => toString r.gasUsed)
                gasPrice := tx.gasPrice.map toString
                timestamp := blockTimestamp
                status := if (receipt.bind Receipt.status) == some 1
                          then .success else .failed }])
        else scanTxsInBlock env address limit blockNumber blockTimestamp rest acc

/-- The outer loop of the block scan (transaction.service.ts lines
399-457): for each offset, stop when `limit` results are collected or
the block number would go negative; a failed or null block fetch, or a
block without transactions, is skipped. -/
def scanBlocksLoop (env : ScanEnv) (address : String) (limit : Nat)
    (currentBlock : Int) :
    List Nat → List TransactionResponse → List TransactionResponse
  | [], acc => acc
  | i :: rest, acc =>
    if acc.length ≥ limit then acc
    else
      let blockNumber : Int := currentBlock - (i : Int)
      if blockNumber < 0 then acc
      else
        match env.getBlock blockNumber with
        | .error _ => scanBlocksLoop env address limit currentBlock rest acc
        | .ok none => scanBlocksLoop env address limit currentBlock rest acc
        | .ok (some block) =>
          match block.transactions with
          | none => scanBlocksLoop env address limit currentBlock rest acc
          | some txs =>
            scanBlocksLoop env address limit currentBlock rest
              (scanTxsInBlock env address limit blockNumber block.timestamp txs acc)

/-- `fetchTransactionsFromBlockchain(address, limit, chainId)`
(transaction.service.ts lines 376-463; the identical copy in
wallet.service.ts lines 497-584): a failed block-number fetch yields
`[]`; otherwise scan backward from the current block and sort the
collected list by descending timestamp. -/
def fetchTransactionsFromBlockchain (env : ScanEnv) (address : String)
    (limit : Nat) : List TransactionResponse :=
  match env.blockNumberOutcome with
  | .error _ => []
  | .ok currentBlock =>
    sortByTimestampDesc (scanBlocksLoop env address limit currentBlock blockOffsets [])

/-- The strategy choice of `syncTransactions` (transaction.service.ts
lines 259-270; same shape in `syncTransactionsInBackground`,
wallet.service.ts lines 358-369): try the indexer fetch first and fall
back to the block scan exactly when it returned an empty list. -/
def syncFetchTransactions (apiKey : Option String)
    (etherscanOutcome : Except Unit EtherscanData) (scanEnv : ScanEnv)
    (address : String) (limit : Nat) : List TransactionResponse :=
  let transactions := fetchTransactionsFromEtherscan apiKey etherscanOutcome limit
  if transactions.length = 0 then
    fetchTransactionsFromBlockchain scanEnv address limit
  else transactions

/-! ### Cache reconciliation (upsert by (hash, chainId)) -/

/-- A persisted `Transaction` row (prisma schema; columns irrelevant to
the claims — id, token fields, notes/tags, created/updated timestamps —
are omitted).  `timestampMs` holds the stored `Date` as epoch
milliseconds (`new Date(tx.timestamp * 1000)`). -/
structure TxRow where
  hash : String
  chainId : Nat
  fromAddress : String
  toAddress : String
  amount : String
  blockNumber : Int
  gasUsed : Option Nat
  gasPrice : Option Nat
  timestampMs : Int
  status : TxStatus
  walletId : String
deriving Repr, DecidableEq

/-- Does a row carry the given composite key? -/
def keyMatches (hash : String) (chainId : Nat) (r : TxRow) : Bool :=
  r.hash == hash && r.chainId == chainId

/-- Modelled from the spec: the cache store's `upsertTransaction(hash,
chainId)` collaborator (spec §6, "Core assumes upsert is atomic per
composite key"; prisma migration `Transaction_hash_chainId_key` declares
the unique composite index).  The store itself is an external
collaborator not implemented under src/: upsert applies the update
payload in place when a row with the key exists, otherwise inserts the
create payload. -/
def upsertTransaction (store : List TxRow) (hash : String) (chainId : Nat)
    (upd : TxRow → TxRow) (create : TxRow) : List TxRow :=
  if store.any (keyMatches hash chainId) then
    store.map (fun r => if keyMatches hash chainId r then upd r else r)
  else store ++ [create]

/-- `tx.gasUsed ? BigInt(tx.gasUsed) : null`: a falsy field stores null
(`some none`); a malformed numeric string makes `BigInt` throw,
modelled as `none` (the per-transaction `try`/`catch` then skips the
transaction). -/
def optBigInt : Option String → Option (Option Nat)
  | none => some none
  | some s => if s = "" then some none else (parseBigInt s).map some

/-- The row payload written by the upsert of `syncTransactions`
(transaction.service.ts lines 277-301): addresses lowercased, amount
kept as decimal string, block/gas numbers as integers, timestamp scaled
to milliseconds.  `none` models a thrown `BigInt` conversion. -/
def syncRowData (tx : TransactionResponse) (chainId : Nat)
    (walletId : String) : Option TxRow :=
  match optBigInt tx.gasUsed, optBigInt tx.gasPrice with
  | some gu, some gp =>
    some { hash := tx.hash
           chainId := chainId
           fromAddress := strToLower tx.fromAddr
           toAddress := strToLower tx.toAddr
           amount := tx.value
           blockNumber := tx.blockNumber
           gasUsed := gu
           gasPrice := gp
           timestampMs := tx.timestamp * 1000
           status := tx.status
           walletId := walletId }
  | _, _ => none

/-- One iteration of the sync loop (transaction.service.ts lines
273-307): build the payload and upsert it under `(tx.hash, chainId)`;
a payload that fails to build leaves the store untouched (the loop's
`catch` skips the transaction).  The update payload omits `hash`, so an
updated row keeps its stored hash. -/
def syncUpsertOne (store : List TxRow) (tx : TransactionResponse)
    (chainId : Nat) (walletId : String) : List TxRow :=
  match syncRowData tx chainId walletId with
  | none => store
  | some row =>
    upsertTransaction store tx.hash chainId
      (fun r => { row with hash := r.hash }) row

/-! ### `getTransactionByHash` -/

/-- A cached transaction row as read back in `getTransactionByHash`
(only the columns that feed the response). -/
structure CachedTx where
  hash : String
  fromAddress : String
  toAddress : String
  amount : String
  blockNumber : Int
  gasUsed : Option Nat
  gasPrice : Option Nat
  timestampMs : Int
  status : TxStatus
deriving Repr, DecidableEq

/-- A transaction as returned by `provider.getTransaction(hash)`. -/
structure OnChainTx where
  hash : String
  fromAddr : String
  toAddr : Option String
  value : Nat
  blockNumber : Option Int
  gasPrice : Option Nat
deriving Repr, DecidableEq

/-- Service-level failure: `NotFoundException` versus the generic
`Error` wrapper. -/
inductive ServiceError where
  | notFound (msg : String)
  | generic (msg : String)
deriving Repr, DecidableEq

/-- External outcomes consumed by one run of `getTransactionByHash`. -/
structure HashLookupEnv where
  /-- `prisma.transaction.findFirst({ hash, chainId })`. -/
  cached : Option CachedTx
  /-- cached path: `getTransactionReceipt(...).catch(() => null)`. -/
  cachedReceipt : Option Receipt
  /-- cached path: metadata resolution outcome. -/
  cachedMetadata : Except Unit TokenMetadata
  /-- uncached path: `provider.getTransaction(hash)` (`.error` = throw). -/
  chainTx : Except Unit (Option OnChainTx)
  /-- uncached path: `provider.getTransactionReceipt(hash)` — no catch,
  a throw escapes to the outer handler. -/
  chainReceipt : Except Unit (Option Receipt)
  /-- uncached path: `provider.getBlock(tx.blockNumber || 0)`. -/
  chainBlock : Except Unit (Option ChainBlock)
  /-- uncached path: metadata resolution outcome. -/
  chainMetadata : Except Unit TokenMetadata

/-- `getTransactionByHash(hash, chainId)` (transaction.service.ts lines
104-236).  Cached row present: build the response from the row and
attach token info when a receipt can be read (detection failures are
swallowed; this path cannot fail).  No cached row: `getTransaction` —
a throw is wrapped generic by the outer handler, `null` raises
`NotFoundException` which the outer handler re-throws unwrapped;
then receipt and block fetches (throws wrapped generic), response
assembly, token attachment, and a swallowed `cacheTransaction` write
(store write not modelled — it cannot affect the returned value). -/
def getTransactionByHash (env : HashLookupEnv) (hash : String) :
    Except ServiceError TransactionResponse :=
  match env.cached with
  | some cachedTx =>
    let resp : TransactionResponse := {
      hash := cachedTx.hash
      fromAddr := cachedTx.fromAddress
      toAddr := cachedTx.toAddress
      value := cachedTx.amount
      blockNumber := cachedTx.blockNumber
      gasUsed := cachedTx.gasUsed.map toString
      gasPrice := cachedTx.gasPrice.map toString
      timestamp := cachedTx.timestampMs / 1000
      status := cachedTx.status }
    .ok (match env.cachedReceipt with
      | none => resp
      | some receipt => attachTokenTransfer (some receipt) env.cachedMetadata resp)
  | none =>
    match env.chainTx with
    | .error _ => .error (.generic "Failed to fetch transaction")
    | .ok none => .error (.notFound ("Transaction " ++ hash ++ " not found"))
    | .ok (some tx) =>
      match env.chainReceipt with
      | .error _ => .error (.generic "Failed to fetch transaction")
      | .ok receipt =>
        match env.chainBlock with
        | .error _ => .error (.generic "Failed to fetch transaction")
        | .ok block =>
          let resp : TransactionResponse := {
            hash := tx.hash
            fromAddr := tx.fromAddr
            toAddr := tx.toAddr.getD ""
            value := formatEther tx.value
            blockNumber := tx.blockNumber.getD 0
            gasUsed := receipt.map (fun r => toString r.gasUsed)
            gasPrice := tx.gasPrice.map toString
            timestamp := (block.map ChainBlock.timestamp).getD 0
            status := if (receipt.bind Receipt.status) == some 1
                      then .success else .failed }
          .ok (attachTokenTransfer receipt env.chainMetadata resp)

/-! ### Concrete fixtures used by the witness theorems -/

/-- A minimal normalized transaction. -/
def mkSimpleTx (h fromA toA : String) (ts : Int) : TransactionResponse :=
  { hash := h
    fromAddr := fromA
    toAddr := toA
    value := "0.0"
    blockNumber := 0
    gasUsed := none
    gasPrice := none
    timestamp := ts
    status := .success }

/-- 25 cached transactions for one wallet, newest-first timestamps. -/
def testTxs25 : List TransactionResponse :=
  (List.range 25).map (fun i => mkSimpleTx (toString i) "0xaaa" "0xbbb" (24 - (i : Int)))

/-- A well-formed ERC-20 Transfer log: 3 topics, canonical signature,
32-byte-padded from/to, data `0x64` = 100. -/
def testLog : LogEntry :=
  { address := "0xtoken"
    topics := [TRANSFER_EVENT_SIGNATURE,
      "0x0000000000000000000000001111111111111111111111111111111111111111",
      "0x0000000000000000000000002222222222222222222222222222222222222222"]
    data := some "0x64" }

/-- A Transfer-shaped log whose data payload is not parseable
(`BigInt` throws), so detection must skip it. -/
def testBadLog : LogEntry :=
  { address := "0xbadtoken"
    topics := [TRANSFER_EVENT_SIGNATURE,
      "0x0000000000000000000000001111111111111111111111111111111111111111",
      "0x0000000000000000000000002222222222222222222222222222222222222222"]
    data := some "0xzz" }

/-- A log that is not a Transfer event (wrong first topic). -/
def testOtherLog : LogEntry :=
  { address := "0xother"
    topics := ["0x0000000000000000000000000000000000000000000000000000000000000001",
      "0x0000000000000000000000001111111111111111111111111111111111111111",
      "0x0000000000000000000000002222222222222222222222222222222222222222"]
    data := some "0x01" }

/-- Receipt holding exactly the good Transfer log. -/
def testReceipt : Receipt :=
  { logs := [testLog], status := some 1, gasUsed := 21000 }

/-- A single on-chain transaction touching address `0xaa`. -/
def testChainTx : ChainTx :=
  { hash := "0xc1"
    fromAddr := some "0xAA"
    toAddr := some "0xBB"
    value := 0
    gasPrice := none }

/-- Scan environment: block number 100, every block holds `testChainTx`,
every receipt fetch resolves to null. -/
def testScanEnv : ScanEnv :=
  { blockNumberOutcome := .ok 100
    getBlock := fun _ => .ok (some { timestamp := 7, transactions := some [testChainTx] })
    getReceipt := fun _ => .ok none }

/-- Indexer response carrying two raw entries, newest first. -/
def testEtherscanData : EtherscanData :=
  { statusIsZero := false
    message := some "OK"
    result := .listResult [
      { hash := "0xe1", fromAddr := "0xaa", toAddr := some "0xbb", value := 0,
        blockNumber := 90, gasUsed := some "21000", gasPrice := some "7",
        timeStamp := 500, isError := some "0" },
      { hash := "0xe2", fromAddr := "0xbb", toAddr := some "0xaa", value := 0,
        blockNumber := 80, gasUsed := some "21000", gasPrice := some "7",
        timeStamp := 400, isError := some "1" }] }

/-- First write of the double-upsert witness. -/
def fxTx1 : TransactionResponse := mkSimpleTx "0xdup" "0xA1" "0xB1" 10

/-- Second write of the double-upsert witness: same hash, different
field values. -/
def fxTx2 : TransactionResponse :=
  { mkSimpleTx "0xdup" "0xA2" "0xB2" 20 with
    gasUsed := some "21000", gasPrice := some "5" }

/-- The row the second write must leave in the store. -/
def fxRow2 : TxRow :=
  { hash := "0xdup"
    chainId := 1
    fromAddress := "0xa2"
    toAddress := "0xb2"
    amount := "0.0"
    blockNumber := 0
    gasUsed := some 21000
    gasPrice := some 5
    timestampMs := 20000
    status := .success
    walletId := "w2" }

/-- Wallet-W-sent transactions of the filter witness. -/
def fxSentA : TransactionResponse := mkSimpleTx "0xs1" "0xW" "0xz" 3

/-- Second sent transaction of the filter witness. -/
def fxSentB : TransactionResponse := mkSimpleTx "0xs2" "0xW" "0xq" 1

/-- Wallet-W-received transaction of the filter witness. -/
def fxRecvA : TransactionResponse := mkSimpleTx "0xr1" "0xz" "0xW" 2

/-- Candidate list of the filter witness. -/
def fxFilterTxs : List TransactionResponse := [fxSentA, fxRecvA, fxSentB]

/-- Environment of the hash-lookup witness: nothing cached, transaction
not resolvable on-chain. -/
def fxMissEnv : HashLookupEnv :=
  { cached := none
    cachedReceipt := none
    cachedMetadata := .error ()
    chainTx := .ok none
    chainReceipt := .ok none
    chainBlock := .ok none
    chainMetadata := .error () }

/-- The transaction the block-scan witness returns: found in block 100,
null receipt (hence failed status, no gasUsed). -/
def fxScanTx : TransactionResponse :=
  { hash := "0xc1"
    fromAddr := "0xAA"
    toAddr := "0xBB"
    value := "0.0"
    blockNumber := 100
    gasUsed := none
    gasPrice := none
    timestamp := 7
    status := .failed }

/-! ## Helper lemmas -/

/-- The source's log scan equals the spec-side selection: the first log
that both matches the Transfer topic test and parses. -/
theorem scanLogs_eq_spec (logs : List LogEntry) :
    scanLogs logs =
      ((logs.filter fun log => isTransferLog log && (parseTransferLog log).isSome).head?).bind
        parseTransferLog := by
  induction logs with
  | nil => rfl
  | cons log rest ih =>
    cases hT : isTransferLog log with
    | true =>
      cases hP : parseTransferLog log with
      | some info => simp [scanLogs, hT, hP, List.filter_cons]
      | none => simp [scanLogs, hT, hP, List.filter_cons, ih]
    | false => simp [scanLogs, hT, List.filter_cons, ih]

theorem fracValue_append_single (l : List Nat) (x : Nat) :
    fracValue (l ++ [x]) = fracValue l + (x : ℚ) / 10 ^ (l.length + 1) := by
  induction l with
  | nil => simp [fracValue]
  | cons a as ih =>
    rw [List.cons_append]
    show ((a : ℚ) + fracValue (as ++ [x])) / 10 = ((a : ℚ) + fracValue as) / 10 + _
    rw [ih, List.length_cons, pow_succ]
    ring

theorem fracValue_append_zero (l : List Nat) :
    fracValue (l ++ [0]) = fracValue l := by
  rw [fracValue_append_single]
  simp

theorem fracValue_append_replicate (l : List Nat) (k : Nat) :
    fracValue (l ++ List.replicate k 0) = fracValue l := by
  induction k generalizing l with
  | zero => simp
  | succ n ih =>
    have h : l ++ List.replicate (n + 1) 0 = (l ++ [0]) ++ List.replicate n 0 := by
      rw [List.append_assoc]
      rfl
    rw [h, ih, fracValue_append_zero]

theorem trimTrailingZeros_spec (l : List Nat) :
    ∃ k, l = trimTrailingZeros l ++ List.replicate k 0 := by
  refine ⟨(l.reverse.takeWhile (fun x => x == 0)).length, ?_⟩
  have htake : l.reverse.takeWhile (fun x => x == 0)
      = List.replicate (l.reverse.takeWhile (fun x => x == 0)).length 0 := by
    apply List.eq_replicate_of_mem
    intro b hb
    simpa using List.mem_takeWhile_imp hb
  calc l = l.reverse.reverse := (List.reverse_reverse l).symm
    _ = ((l.reverse.takeWhile (fun x => x == 0)) ++ (l.reverse.dropWhile (fun x => x == 0))).reverse := by
        rw [List.takeWhile_append_dropWhile]
    _ = (l.reverse.dropWhile (fun x => x == 0)).reverse
          ++ (l.reverse.takeWhile (fun x => x == 0)).reverse := by
        rw [List.reverse_append]
    _ = trimTrailingZeros l ++ List.replicate (l.reverse.takeWhile (fun x => x == 0)).length 0 := by
        rw [trimTrailingZeros]
        congr 1
        conv_lhs => rw [htake]
        rw [List.reverse_replicate]

theorem fracValue_trim (l : List Nat) :
    fracValue (trimTrailingZeros l) = fracValue l := by
  obtain ⟨k, hk⟩ := trimTrailingZeros_spec l
  conv_rhs => rw [hk]
  rw [fracValue_append_replicate]

theorem padDigits_length (d : Nat) : ∀ n, (padDigits d n).length = d := by
  induction d with
  | zero => intro n; rfl
  | succ m ih => intro n; simp [padDigits, ih]

theorem fracValue_padDigits (d : Nat) : ∀ n, n < 10 ^ d →
    fracValue (padDigits d n) = (n : ℚ) / 10 ^ d := by
  induction d with
  | zero =>
    intro n h
    have hn : n = 0 := by omega
    subst hn
    simp [padDigits, fracValue]
  | succ m ih =>
    intro n h
    have hdiv : n / 10 < 10 ^ m := by
      rw [Nat.div_lt_iff_lt_mul (by norm_num)]
      calc n < 10 ^ (m + 1) := h
        _ = 10 ^ m * 10 := by ring
    rw [padDigits, fracValue_append_single, ih _ hdiv, padDigits_length]
    have hn : (n : ℚ) = 10 * ((n / 10 : Nat) : ℚ) + ((n % 10 : Nat) : ℚ) := by
      exact_mod_cast (Nat.div_add_mod n 10).symm
    rw [hn, pow_succ]
    field_simp
    ring

theorem fracValue_fracDigitsOf (value decimals : Nat) :
    fracValue (fracDigitsOf value decimals)
      = ((value % 10 ^ decimals : Nat) : ℚ) / 10 ^ decimals := by
  have hmod : value % 10 ^ decimals < 10 ^ decimals := Nat.mod_lt _ (by positivity)
  have h1 : fracValue (trimTrailingZeros (padDigits decimals (value % 10 ^ decimals)))
      = ((value % 10 ^ decimals : Nat) : ℚ) / 10 ^ decimals := by
    rw [fracValue_trim, fracValue_padDigits _ _ hmod]
  have hite : ∀ t : List Nat, fracValue (if t.isEmpty then [0] else t) = fracValue t := by
    intro t
    cases t with
    | nil => simp [fracValue]
    | cons a as => simp [List.isEmpty]
  rw [fracDigitsOf]
  show fracValue (if _ then _ else _) = _
  rw [hite, h1]

theorem partsValue_formatUnitsParts (value decimals : Nat) :
    partsValue (formatUnitsParts value decimals) = (value : ℚ) / 10 ^ decimals := by
  show ((value / 10 ^ decimals : Nat) : ℚ) + fracValue (fracDigitsOf value decimals) = _
  rw [fracValue_fracDigitsOf]
  have h10 : ((10 : ℚ)) ^ decimals ≠ 0 := by positivity
  field_simp
  exact_mod_cast Nat.div_add_mod' value (10 ^ decimals)

/-- The natural-number formula `(t + l - 1) / l` used for `totalPages`
computes the mathematical ceiling of `t / l`. -/
theorem nat_ceilDiv_eq (t l : Nat) (hl : 1 ≤ l) :
    (t + l - 1) / l = ⌈(t : ℚ) / (l : ℚ)⌉₊ := by
  have hl0 : (0 : ℚ) < (l : ℚ) := by exact_mod_cast hl
  rcases Nat.eq_zero_or_pos t with h0 | hpos
  · subst h0
    have h1 : (l - 1) / l = 0 := Nat.div_eq_of_lt (by omega)
    simp [h1]
  · have h1 : l * ((t + l - 1) / l) + (t + l - 1) % l = t + l - 1 :=
      Nat.div_add_mod _ _
    have h2 : (t + l - 1) % l < l := Nat.mod_lt _ (by omega)
    obtain ⟨n, hn⟩ : ∃ n, (t + l - 1) / l = n := ⟨_, rfl⟩
    obtain ⟨m, hm⟩ : ∃ m, (t + l - 1) % l = m := ⟨_, rfl⟩
    rw [hn, hm] at h1
    rw [hm] at h2
    obtain ⟨k, hk⟩ : ∃ k, l * n = k := ⟨_, rfl⟩
    rw [hk] at h1
    have hub : t ≤ k := by omega
    have hn1 : 1 ≤ n := by
      rcases Nat.eq_zero_or_pos n with h | h
      · exfalso
        rw [h, Nat.mul_zero] at hk
        omega
      · exact h
    have hlb : k - l < t := by omega
    rw [hn]
    symm
    rw [Nat.ceil_eq_iff (by omega)]
    constructor
    · rw [lt_div_iff₀ hl0]
      have hnat : (n - 1) * l < t := by
        have he : (n - 1) * l = k - l := by
          rw [Nat.sub_mul, one_mul, Nat.mul_comm n l, hk]
        omega
      exact_mod_cast hnat
    · rw [div_le_iff₀ hl0]
      have hnat : t ≤ n * l := by
        rw [Nat.mul_comm n l, hk]
        exact hub
      exact_mod_cast hnat

/-- Every transaction added by the inner block-scan loop carries the
block number of the block being scanned. -/
theorem scanTxsInBlock_blockNumber (env : ScanEnv) (address : String)
    (limit : Nat) (bn ts : Int) :
    ∀ txs acc tx, tx ∈ scanTxsInBlock env address limit bn ts txs acc →
      tx ∈ acc ∨ tx.blockNumber = bn := by
  intro txs
  induction txs with
  | nil =>
    intro acc tx h
    exact Or.inl h
  | cons t rest ih =>
    intro acc tx h
    rw [scanTxsInBlock] at h
    by_cases hlim : acc.length ≥ limit
    · simp only [if_pos hlim] at h
      exact Or.inl h
    · simp only [if_neg hlim] at h
      cases hu : chainTxUsable t with
      | none =>
        simp only [hu] at h
        exact ih acc tx h
      | some ft =>
        simp only [hu] at h
        by_cases hmatch : (strToLower ft.1 == address || strToLower ft.2 == address) = true
        · rw [if_pos hmatch] at h
          cases hr : env.getReceipt t.hash with
          | error e =>
            simp only [hr] at h
            exact ih acc tx h
          | ok receipt =>
            simp only [hr] at h
            rcases ih _ tx h with hacc | hbn
            · rcases List.mem_append.mp hacc with hacc2 | hnew
              · exact Or.inl hacc2
              · right
                rw [List.mem_singleton.mp hnew]
            · exact Or.inr hbn
        · rw [if_neg hmatch] at h
          exact ih acc tx h

/-- The inner loop never grows the accumulator beyond `limit`. -/
theorem scanTxsInBlock_length (env : ScanEnv) (address : String)
    (limit : Nat) (bn ts : Int) :
    ∀ txs acc, acc.length ≤ limit →
      (scanTxsInBlock env address limit bn ts txs acc).length ≤ limit := by
  intro txs
  induction txs with
  | nil =>
    intro acc hacc
    exact hacc
  | cons t rest ih =>
    intro acc hacc
    rw [scanTxsInBlock]
    by_cases hlim : acc.length ≥ limit
    · simp only [if_pos hlim]
      exact hacc
    · simp only [if_neg hlim]
      cases hu : chainTxUsable t with
      | none =>
        simp only [hu]
        exact ih acc hacc
      | some ft =>
        simp only [hu]
        by_cases hmatch : (strToLower ft.1 == address || strToLower ft.2 == address) = true
        · rw [if_pos hmatch]
          cases hr : env.getReceipt t.hash with
          | error e =>
            simp only [hr]
            exact ih acc hacc
          | ok receipt =>
            simp only [hr]
            apply ih
            rw [List.length_append, List.length_singleton]
            omega
        · rw [if_neg hmatch]
          exact ih acc hacc

/-- Every transaction produced by the outer block-scan loop either was
already accumulated or has the block number `currentBlock - i` for one
of the visited offsets `i`. -/
theorem scanBlocksLoop_blockNumber (env : ScanEnv) (address : String)
    (limit : Nat) (cb : Int) :
    ∀ offsets acc tx, tx ∈ scanBlocksLoop env address limit cb offsets acc →
      tx ∈ acc ∨ ∃ i ∈ offsets, tx.blockNumber = cb - (i : Int) := by
  intro offsets
  induction offsets with
  | nil =>
    intro acc tx h
    exact Or.inl h
  | cons i rest ih =>
    intro acc tx h
    rw [scanBlocksLoop] at h
    by_cases hlim : acc.length ≥ limit
    · simp only [if_pos hlim] at h
      exact Or.inl h
    · simp only [if_neg hlim] at h
      by_cases hneg : (cb - (i : Int)) < 0
      · rw [if_pos hneg] at h
        exact Or.inl h
      · rw [if_neg hneg] at h
        have step : ∀ acc2, (∀ u, u ∈ acc2 → u ∈ acc ∨ u.blockNumber = cb - (i : Int)) →
            tx ∈ scanBlocksLoop env address limit cb rest acc2 →
            tx ∈ acc ∨ ∃ j ∈ i :: rest, tx.blockNumber = cb - (j : Int) := by
          intro acc2 hacc2 hmem
          rcases ih acc2 tx hmem with hin | ⟨j, hj, hbn⟩
          · rcases hacc2 tx hin with hin2 | hbn
            · exact Or.inl hin2
            · exact Or.inr ⟨i, List.mem_cons_self i rest, hbn⟩
          · exact Or.inr ⟨j, List.mem_cons_of_mem i hj, hbn⟩
        cases hb : env.getBlock (cb - (i : Int)) with
        | error e =>
          simp only [hb] at h
          exact step acc (fun u hu => Or.inl hu) h
        | ok ob =>
          simp only [hb] at h
          cases ob with
          | none => exact step acc (fun u hu => Or.inl hu) h
          | some block =>
            cases hbt : block.transactions with
            | none =>
              simp only [hbt] at h
              exact step acc (fun u hu => Or.inl hu) h
            | some btxs =>
              simp only [hbt] at h
              refine step _ ?_ h
              intro u hu
              exact scanTxsInBlock_blockNumber env address limit _ _ btxs acc u hu

/-- The outer loop never grows the accumulator beyond `limit`. -/
theorem scanBlocksLoop_length (env : ScanEnv) (address : String)
    (limit : Nat) (cb : Int) :
    ∀ offsets acc, acc.length ≤ limit →
      (scanBlocksLoop env address limit cb offsets acc).length ≤ limit := by
  intro offsets
  induction offsets with
  | nil =>
    intro acc hacc
    exact hacc
  | cons i rest ih =>
    intro acc hacc
    rw [scanBlocksLoop]
    by_cases hlim : acc.length ≥ limit
    · simp only [if_pos hlim]
      exact hacc
    · simp only [if_neg hlim]
      by_cases hneg : (cb - (i : Int)) < 0
      · rw [if_pos hneg]
        exact hacc
      · rw [if_neg hneg]
        cases hb : env.getBlock (cb - (i : Int)) with
        | error e =>
          simp only [hb]
          exact ih acc hacc
        | ok ob =>
          cases ob with
          | none => exact ih acc hacc
          | some block =>
            obtain ⟨bts, obtx⟩ := block
            cases obtx with
            | none => exact ih acc hacc
            | some btxs =>
              apply ih
              exact scanTxsInBlock_length env address limit _ _ btxs acc hacc

/-- Sorting by descending timestamp is a permutation, hence preserves
length and membership. -/
theorem sortByTimestampDesc_perm (txs : List TransactionResponse) :
    (sortByTimestampDesc txs).Perm txs :=
  List.perm_insertionSort _ txs

/-- The sorted output has pairwise non-increasing timestamps. -/
theorem sortByTimestampDesc_sorted (txs : List TransactionResponse) :
    (sortByTimestampDesc txs).Pairwise
      (fun a b => b.timestamp ≤ a.timestamp) := by
  haveI : IsTotal TransactionResponse (fun a b => b.timestamp ≤ a.timestamp) :=
    ⟨fun a b => le_total b.timestamp a.timestamp⟩
  haveI : IsTrans TransactionResponse (fun a b => b.timestamp ≤ a.timestamp) :=
    ⟨fun _ _ _ hab hbc => le_trans hbc hab⟩
  exact List.sorted_insertionSort _ txs

/-- A successfully built sync payload carries the transaction's hash and
the requested chain id. -/
theorem syncRowData_fields (tx : TransactionResponse) (chainId : Nat)
    (w : String) (row : TxRow) (h : syncRowData tx chainId w = some row) :
    row.hash = tx.hash ∧ row.chainId = chainId := by
  rw [syncRowData] at h
  cases hgu : optBigInt tx.gasUsed with
  | none => simp [hgu] at h
  | some gu =>
    cases hgp : optBigInt tx.gasPrice with
    | none => simp [hgu, hgp] at h
    | some gp =>
      simp only [hgu, hgp, Option.some.injEq] at h
      rw [← h]
      exact ⟨rfl, rfl⟩

/-- A per-element rewrite that preserves each element's key status
preserves the key-filtered count. -/
theorem length_filter_map_of_pres (p : TxRow → Bool) (f : TxRow → TxRow) :
    ∀ l : List TxRow, (∀ r ∈ l, p (f r) = p r) →
      ((l.map f).filter p).length = (l.filter p).length := by
  intro l
  induction l with
  | nil => intro _; rfl
  | cons r rest ih =>
    intro hpres
    simp only [List.map_cons, List.filter_cons]
    rw [hpres r (List.mem_cons_self r rest)]
    cases hp : p r with
    | false =>
      simp only [Bool.false_eq_true, if_false]
      exact ih (fun x hx => hpres x (List.mem_cons_of_mem r hx))
    | true =>
      simp only [if_true, List.length_cons]
      rw [ih (fun x hx => hpres x (List.mem_cons_of_mem r hx))]

/-- An upsert whose create payload matches the key and whose update
payload rewrites every key-matching row to that same payload leaves
exactly one row with the key — given the store held at most one. -/
theorem upsertTransaction_filter (store : List TxRow) (h : String) (c : Nat)
    (upd : TxRow → TxRow) (create : TxRow)
    (hinv : (store.filter (keyMatches h c)).length ≤ 1)
    (hcreate : keyMatches h c create = true)
    (hupd : ∀ r, keyMatches h c r = true → upd r = create) :
    (upsertTransaction store h c upd create).filter (keyMatches h c) = [create] := by
  rw [upsertTransaction]
  by_cases hany : store.any (keyMatches h c) = true
  · rw [if_pos hany]
    have hgen : ∀ l : List TxRow,
        (l.map (fun r => if keyMatches h c r then upd r else r)).filter (keyMatches h c)
          = (l.filter (keyMatches h c)).map (fun _ => create) := by
      intro l
      induction l with
      | nil => rfl
      | cons r rest ih =>
        by_cases hk : keyMatches h c r = true
        · simp only [List.map_cons, if_pos hk, List.filter_cons, hk, if_true]
          rw [hupd r hk]
          simp only [List.filter_cons, hcreate, if_true, List.map_cons, ih]
        · simp only [List.map_cons, if_neg hk, List.filter_cons,
            Bool.not_eq_true] at hk ⊢
          exact ih
    rw [hgen]
    have hlen : (store.filter (keyMatches h c)).length = 1 := by
      rcases List.any_eq_true.mp hany with ⟨x, hx, hkx⟩
      have : x ∈ store.filter (keyMatches h c) := List.mem_filter.mpr ⟨hx, hkx⟩
      have hpos : 0 < (store.filter (keyMatches h c)).length :=
        List.length_pos.mpr (List.ne_nil_of_mem this)
      omega
    cases hfl : store.filter (keyMatches h c) with
    | nil => rw [hfl] at hlen; simp at hlen
    | cons a as =>
      rw [hfl] at hlen
      simp only [List.length_cons] at hlen
      have : as = [] := List.eq_nil_of_length_eq_zero (by omega)
      rw [this]
      rfl
  · rw [if_neg hany]
    rw [List.filter_append]
    have hnil : store.filter (keyMatches h c) = [] := by
      rw [List.filter_eq_nil_iff]
      intro a ha hka
      exact hany (List.any_eq_true.mpr ⟨a, ha, hka⟩)
    rw [hnil]
    simp [List.filter_cons, hcreate]

/-- One sync upsert step preserves the at-most-one-row-per-key store
invariant, for every target key. -/
theorem syncUpsertOne_key_count (store : List TxRow)
    (tx : TransactionResponse) (chainId : Nat) (w : String)
    (h : String) (c : Nat)
    (hinv : (store.filter (keyMatches h c)).length ≤ 1) :
    ((syncUpsertOne store tx chainId w).filter (keyMatches h c)).length ≤ 1 := by
  cases hrd : syncRowData tx chainId w with
  | none => simpa [syncUpsertOne, hrd] using hinv
  | some row =>
    obtain ⟨hh, hc⟩ := syncRowData_fields tx chainId w row hrd
    simp only [syncUpsertOne, hrd]
    rw [upsertTransaction]
    by_cases hany : store.any (keyMatches tx.hash chainId) = true
    · rw [if_pos hany]
      rw [length_filter_map_of_pres]
      · exact hinv
      · intro r _
        by_cases hk : keyMatches tx.hash chainId r = true
        · rw [if_pos hk]
          simp only [keyMatches, Bool.and_eq_true, beq_iff_eq] at hk
          simp only [keyMatches, hc, hk.2]
        · rw [if_neg hk]
    · rw [if_neg hany]
      rw [List.filter_append]
      by_cases hkc : keyMatches h c row = true
      · have hkey : h = tx.hash ∧ c = chainId := by
          simp only [keyMatches, Bool.and_eq_true, beq_iff_eq, hh, hc] at hkc
          exact ⟨hkc.1.symm, hkc.2.symm⟩
        have hnil : store.filter (keyMatches h c) = [] := by
          rw [List.filter_eq_nil_iff]
          intro a ha hka
          apply hany
          refine List.any_eq_true.mpr ⟨a, ha, ?_⟩
          rw [← hkey.1, ← hkey.2]
          exact hka
        rw [hnil]
        simp [List.filter_cons, hkc]
      · have : List.filter (keyMatches h c) [row] = [] := by
          simp [List.filter_cons, hkc]
        rw [this]
        simpa using hinv

/-! ## Claim theorems -/

/-- C2: token-transfer detection scans the logs in order and returns,
for the first log with exactly 3 topics whose first topic is the
canonical Transfer signature hash, the record with the log's emitting
address, the low 20 bytes of topics 2 and 3 as from/to, and the data
payload parsed as an unsigned big integer; a log that fails to parse is
skipped; no matching log (including zero logs, and a null receipt)
yields none, which is a value, not an error. -/
theorem detectTokenTransfer_correct :
    (∀ receipt, detectTokenTransfer receipt = detectTokenTransferSpec receipt)
    ∧ detectTokenTransfer (some testReceipt) = some
        ⟨"0xtoken", "0x1111111111111111111111111111111111111111",
          "0x2222222222222222222222222222222222222222", 100⟩
    ∧ detectTokenTransfer (some ⟨[testOtherLog, testBadLog, testLog], some 1, 0⟩) = some
        ⟨"0xtoken", "0x1111111111111111111111111111111111111111",
          "0x2222222222222222222222222222222222222222", 100⟩
    ∧ detectTokenTransfer (some ⟨[], some 1, 0⟩) = none
    ∧ (∀ r : Receipt, (∀ log ∈ r.logs, isTransferLog log = false) →
        detectTokenTransfer (some r) = none)
    ∧ detectTokenTransfer none = none := by
  refine ⟨?_, by decide, by decide, by decide, ?_, rfl⟩
  · intro receipt
    cases receipt with
    | none => rfl
    | some r =>
      cases hl : r.logs with
      | nil => simp [detectTokenTransfer, detectTokenTransferSpec, hl]
      | cons a as =>
        simp [detectTokenTransfer, detectTokenTransferSpec, hl, scanLogs_eq_spec]
  · intro r hr
    have hnil : r.logs.filter
        (fun log => isTransferLog log && (parseTransferLog log).isSome) = [] := by
      rw [List.filter_eq_nil_iff]
      intro a ha
      rw [hr a ha]
      simp
    cases hl : r.logs with
    | nil => simp [detectTokenTransfer, hl]
    | cons a as =>
      have := scanLogs_eq_spec r.logs
      rw [hnil] at this
      rw [hl] at this
      simp [detectTokenTransfer, hl]
      simpa using this

/-- C2 witness: the no-matching-log case applied to a concrete receipt. -/
theorem detectTokenTransfer_correct_witness :
    detectTokenTransfer (some ⟨[testOtherLog], some 1, 0⟩) = none := by
  exact detectTokenTransfer_correct.2.2.2.2.1 ⟨[testOtherLog], some 1, 0⟩ (by decide)

/-- C5: the formatted token amount denotes exactly rawAmount / 10^d as
an exact decimal (whole part plus fraction digits), with full precision
of the raw integer; in particular 1500000000000000000 with 18 decimals
and 1500000 with 6 decimals both format to "1.5". -/
theorem formatUnits_exact_division :
    (∀ value decimals : Nat,
        partsValue (formatUnitsParts value decimals) = (value : ℚ) / 10 ^ decimals)
    ∧ formatUnits 1500000000000000000 18 = "1.5"
    ∧ formatUnits 1500000 6 = "1.5" := by
  exact ⟨partsValue_formatUnitsParts, by decide, by decide⟩

/-- C1: upserting a transaction twice under the same (hash, chainId)
composite key leaves exactly one stored row for that key, carrying the
second write's field values; re-ingesting an already-stored transaction
updates it in place and never creates a duplicate.  The store invariant
(at most one row per key, enforced by the unique composite index) is a
hypothesis. -/
theorem upsert_same_key_last_write_wins (store : List TxRow)
    (t1 t2 : TransactionResponse) (chainId : Nat) (w1 w2 : String)
    (row2 : TxRow)
    (hkey : t1.hash = t2.hash)
    (hinv : (store.filter (keyMatches t2.hash chainId)).length ≤ 1)
    (hrow2 : syncRowData t2 chainId w2 = some row2) :
    ((syncUpsertOne (syncUpsertOne store t1 chainId w1) t2 chainId w2).filter
        (keyMatches t2.hash chainId)) = [row2] := by
  have hinv1 := syncUpsertOne_key_count store t1 chainId w1 t2.hash chainId hinv
  obtain ⟨hh, hc⟩ := syncRowData_fields t2 chainId w2 row2 hrow2
  simp only [syncUpsertOne, hrow2]
  apply upsertTransaction_filter _ _ _ _ _ hinv1
  · simp [keyMatches, hh, hc]
  · intro r hr
    simp only [keyMatches, Bool.and_eq_true, beq_iff_eq] at hr
    rw [hr.1, ← hh]

/-- C1 witness: two writes with hash `0xdup` on an empty store leave
exactly the row built from the second write. -/
theorem upsert_same_key_last_write_wins_witness :
    ((syncUpsertOne (syncUpsertOne [] fxTx1 1 "w1") fxTx2 1 "w2").filter
        (keyMatches "0xdup" 1)) = [fxRow2] := by
  exact upsert_same_key_last_write_wins [] fxTx1 fxTx2 1 "w1" "w2" fxRow2
    rfl (by decide) (by decide)

/-- C3: for validated inputs (1 ≤ limit ≤ 100, page ≥ 1) the pagination
step slices with skip = (page-1)·limit, reports totalPages =
⌈total/limit⌉ and hasMore ↔ page < totalPages. -/
theorem getTransactions_pagination (txs : List TransactionResponse)
    (limit page : Nat) (hl1 : 1 ≤ limit) (hl2 : limit ≤ 100)
    (hp : 1 ≤ page) :
    (paginate txs limit page).transactions
        = (txs.drop ((page - 1) * limit)).take limit
    ∧ (paginate txs limit page).totalPages = ⌈(txs.length : ℚ) / (limit : ℚ)⌉₊
    ∧ ((paginate txs limit page).hasMore = true
        ↔ page < (paginate txs limit page).totalPages) := by
  refine ⟨rfl, ?_, ?_⟩
  · exact (nat_ceilDiv_eq txs.length limit hl1).symm ▸ rfl
  · simp [paginate]

/-- C3 witness: 25 candidate transactions with limit 10 — page 3 returns
5 transactions with totalPages 3 and hasMore false, page 1 has
hasMore true. -/
theorem getTransactions_pagination_witness :
    (getTransactionsCore testTxs25 "0xaaa" none 10 3).transactions.length = 5
    ∧ (getTransactionsCore testTxs25 "0xaaa" none 10 3).totalPages = 3
    ∧ (getTransactionsCore testTxs25 "0xaaa" none 10 3).hasMore = false
    ∧ (getTransactionsCore testTxs25 "0xaaa" none 10 1).hasMore = true := by
  have h3 := getTransactions_pagination (filterByType none "0xaaa" testTxs25)
    10 3 (by decide) (by decide) (by decide)
  have h1 := getTransactions_pagination (filterByType none "0xaaa" testTxs25)
    10 1 (by decide) (by decide) (by decide)
  refine ⟨?_, by decide, by decide, by decide⟩
  rw [getTransactionsCore, h3.1]
  decide

/-- C4: with wallet W sender of exactly A and receiver of exactly B
(disjoint, jointly covering the candidate list), the sent filter returns
exactly A, the received filter exactly B, no filter the union — and the
filter runs before pagination, so total and totalPages reflect the
filtered count. -/
theorem getTransactions_filter_correct (txs : List TransactionResponse)
    (W : String) (A B : List TransactionResponse)
    (hA : A = txs.filter (fun tx => strToLower tx.fromAddr == W))
    (hB : B = txs.filter (fun tx => strToLower tx.toAddr == W))
    (hdisj : ∀ tx ∈ txs, ¬(strToLower tx.fromAddr = W ∧ strToLower tx.toAddr = W))
    (hcover : ∀ tx ∈ txs, strToLower tx.fromAddr = W ∨ strToLower tx.toAddr = W)
    (limit page : Nat) :
    filterByType (some .sent) W txs = A
    ∧ filterByType (some .received) W txs = B
    ∧ (∀ tx, tx ∈ filterByType none W txs ↔ tx ∈ A ∨ tx ∈ B)
    ∧ (getTransactionsCore txs W (some .sent) limit page).total = A.length
    ∧ (getTransactionsCore txs W (some .received) limit page).total = B.length
    ∧ (getTransactionsCore txs W (some .sent) limit page).totalPages
        = (A.length + limit - 1) / limit := by
  refine ⟨hA.symm, hB.symm, ?_, ?_, ?_, ?_⟩
  · intro tx
    constructor
    · intro htx
      have htx2 : tx ∈ txs := htx
      rcases hcover tx htx2 with hf | ht
      · left
        rw [hA]
        exact List.mem_filter.mpr ⟨htx2, by simp [hf]⟩
      · right
        rw [hB]
        exact List.mem_filter.mpr ⟨htx2, by simp [ht]⟩
    · intro htx
      rcases htx with hf | ht
      · rw [hA] at hf
        exact (List.mem_filter.mp hf).1
      · rw [hB] at ht
        exact (List.mem_filter.mp ht).1
  · show (filterByType (some .sent) W txs).length = A.length
    rw [hA]
    rfl
  · show (filterByType (some .received) W txs).length = B.length
    rw [hB]
    rfl
  · show ((filterByType (some .sent) W txs).length + limit - 1) / limit
        = (A.length + limit - 1) / limit
    rw [hA]
    rfl

/-- C4 witness: a 3-transaction candidate list for wallet `0xw` with two
sent and one received transaction. -/
theorem getTransactions_filter_correct_witness :
    filterByType (some .sent) "0xw" fxFilterTxs = [fxSentA, fxSentB]
    ∧ filterByType (some .received) "0xw" fxFilterTxs = [fxRecvA]
    ∧ (getTransactionsCore fxFilterTxs "0xw" (some .sent) 10 1).total = 2 := by
  have h := getTransactions_filter_correct fxFilterTxs "0xw"
    [fxSentA, fxSentB] [fxRecvA] (by decide) (by decide) (by decide)
    (by decide) 10 1
  exact ⟨h.1, h.2.1, by decide⟩

/-- C6: enrichment degrades gracefully — failed receipt fetch or no
detected transfer returns the transaction unmodified with no
tokenTransfer field; a transfer with outright-failed metadata resolution
yields a tokenTransfer with the contract address and raw/formatted
amounts, name/symbol absent and decimals defaulted to 18.  (The function
is total: no enrichment outcome aborts the response.) -/
theorem enrich_degrades_gracefully (tx : TransactionResponse)
    (env : EnrichEnv) :
    (env.receipt = none → enrichTransactionWithTokenInfo env tx = tx)
    ∧ (∀ r, env.receipt = some r → detectTokenTransfer (some r) = none →
        enrichTransactionWithTokenInfo env tx = tx)
    ∧ (∀ r info, env.receipt = some r →
        detectTokenTransfer (some r) = some info →
        env.metadata = .error () →
        enrichTransactionWithTokenInfo env tx
          = { tx with tokenTransfer := some {
              contractAddress := info.contractAddress
              tokenName := none
              tokenSymbol := none
              tokenDecimals := 18
              amount := toString info.amount
              amountFormatted := formatUnits info.amount 18 } }) := by
  refine ⟨?_, ?_, ?_⟩
  · intro hr
    simp [enrichTransactionWithTokenInfo, hr]
  · intro r hr hd
    simp [enrichTransactionWithTokenInfo, hr, attachTokenTransfer, hd]
  · intro r info hr hd hm
    simp [enrichTransactionWithTokenInfo, hr, attachTokenTransfer, hd,
      getTokenMetadata, hm]

/-- C6 witness: a receipt with one Transfer log and a failed metadata
resolution produces the defaulted token-transfer record. -/
theorem enrich_degrades_gracefully_witness :
    enrichTransactionWithTokenInfo ⟨some testReceipt, .error ()⟩
        (mkSimpleTx "0xt" "0xa" "0xb" 5)
      = { mkSimpleTx "0xt" "0xa" "0xb" 5 with tokenTransfer := some {
          contractAddress := "0xtoken"
          tokenName := none
          tokenSymbol := none
          tokenDecimals := 18
          amount := "100"
          amountFormatted := formatUnits 100 18 } } := by
  exact (enrich_degrades_gracefully (mkSimpleTx "0xt" "0xa" "0xb" 5)
      ⟨some testReceipt, .error ()⟩).2.2 testReceipt
    ⟨"0xtoken", "0x1111111111111111111111111111111111111111",
      "0x2222222222222222222222222222222222222222", 100⟩
    rfl (by decide) rfl

/-- C7: the indexer fetch returns the empty list — never an error — when
the API key is absent, the request/decode throws, the response signals
status 0 (error / rate limit / no results), or the result field is a
string, absent, or an empty array; and the sync strategy invokes the
block-scan fallback exactly when the indexer fetch yielded an empty
list. -/
theorem etherscan_empty_and_fallback :
    (∀ outcome limit, fetchTransactionsFromEtherscan none outcome limit = [])
    ∧ (∀ apiKey limit,
        fetchTransactionsFromEtherscan apiKey (.error ()) limit = [])
    ∧ (∀ apiKey data limit, data.statusIsZero = true →
        fetchTransactionsFromEtherscan apiKey (.ok data) limit = [])
    ∧ (∀ apiKey flag msg s limit,
        fetchTransactionsFromEtherscan apiKey
          (.ok ⟨flag, msg, .stringResult s⟩) limit = [])
    ∧ (∀ apiKey flag msg limit,
        fetchTransactionsFromEtherscan apiKey
          (.ok ⟨flag, msg, .absent⟩) limit = [])
    ∧ (∀ apiKey flag msg limit,
        fetchTransactionsFromEtherscan apiKey
          (.ok ⟨flag, msg, .listResult []⟩) limit = [])
    ∧ (∀ apiKey outcome scanEnv address limit,
        syncFetchTransactions apiKey outcome scanEnv address limit
          = if fetchTransactionsFromEtherscan apiKey outcome limit = []
            then fetchTransactionsFromBlockchain scanEnv address limit
            else fetchTransactionsFromEtherscan apiKey outcome limit) := by
  refine ⟨fun _ _ => rfl, ?_, ?_, ?_, ?_, ?_, ?_⟩
  · intro apiKey limit
    cases apiKey <;> rfl
  · intro apiKey data limit hz
    cases apiKey with
    | none => rfl
    | some k => simp [fetchTransactionsFromEtherscan, hz]
  · intro apiKey flag msg s limit
    cases apiKey with
    | none => rfl
    | some k =>
      cases flag <;> simp [fetchTransactionsFromEtherscan]
  · intro apiKey flag msg limit
    cases apiKey with
    | none => rfl
    | some k =>
      cases flag <;> simp [fetchTransactionsFromEtherscan]
  · intro apiKey flag msg limit
    cases apiKey with
    | none => rfl
    | some k =>
      cases flag <;> simp [fetchTransactionsFromEtherscan]
  · intro apiKey outcome scanEnv address limit
    cases hE : fetchTransactionsFromEtherscan apiKey outcome limit with
    | nil => simp [syncFetchTransactions, hE]
    | cons a as => simp [syncFetchTransactions, hE]

/-- C7 witness: a rate-limited / status-0 response with a present API
key yields the empty list. -/
theorem etherscan_empty_and_fallback_witness :
    fetchTransactionsFromEtherscan (some "key")
      (.ok ⟨true, some "NOTOK", .stringResult "Max rate limit reached"⟩) 50
      = [] := by
  exact etherscan_empty_and_fallback.2.2.1 (some "key")
    ⟨true, some "NOTOK", .stringResult "Max rate limit reached"⟩ 50 rfl

/-- C8: getTransactionByHash fails with NotFound — as opposed to the
generic failure wrapper — exactly when the transaction is absent from
the cache and not resolvable on-chain, and the NotFound error carries
its original message (the outer handler re-throws it unwrapped). -/
theorem getTransactionByHash_notFound (env : HashLookupEnv)
    (hash : String) :
    ((∃ msg, getTransactionByHash env hash = .error (.notFound msg))
      ↔ (env.cached = none ∧ env.chainTx = .ok none))
    ∧ (env.cached = none → env.chainTx = .ok none →
        getTransactionByHash env hash
          = .error (.notFound ("Transaction " ++ hash ++ " not found"))) := by
  constructor
  · constructor
    · rintro ⟨msg, hmsg⟩
      cases hc : env.cached with
      | some ct => simp [getTransactionByHash, hc] at hmsg
      | none =>
        cases ht : env.chainTx with
        | error e => simp [getTransactionByHash, hc, ht] at hmsg
        | ok ob =>
          cases ob with
          | none => exact ⟨rfl, rfl⟩
          | some tx =>
            cases hr : env.chainReceipt with
            | error e => simp [getTransactionByHash, hc, ht, hr] at hmsg
            | ok receipt =>
              cases hb : env.chainBlock with
              | error e => simp [getTransactionByHash, hc, ht, hr, hb] at hmsg
              | ok block => simp [getTransactionByHash, hc, ht, hr, hb] at hmsg
    · rintro ⟨hc, ht⟩
      exact ⟨"Transaction " ++ hash ++ " not found",
        by simp [getTransactionByHash, hc, ht]⟩
  · intro hc ht
    simp [getTransactionByHash, hc, ht]

/-- C8 witness: cache miss and null on-chain lookup yield the NotFound
error with its message. -/
theorem getTransactionByHash_notFound_witness :
    getTransactionByHash fxMissEnv "0xabc"
      = .error (.notFound "Transaction 0xabc not found") := by
  exact (getTransactionByHash_notFound fxMissEnv "0xabc").2 rfl rfl

/-- C9: each fetch strategy outputs at most `limit` normalized
transactions, ordered newest-first — for the indexer fetch under the
requested `sort=desc` ordering of the response, unconditionally for the
block scan (which sorts explicitly). -/
theorem fetchers_limit_and_order :
    (∀ apiKey outcome limit,
        (fetchTransactionsFromEtherscan apiKey outcome limit).length ≤ limit)
    ∧ (∀ apiKey outcome limit,
        (∀ data txs, outcome = Except.ok data →
          data.result = .listResult txs →
          txs.Pairwise (fun a b => b.timeStamp ≤ a.timeStamp)) →
        (fetchTransactionsFromEtherscan apiKey outcome limit).Pairwise
          (fun a b => b.timestamp ≤ a.timestamp))
    ∧ (∀ env address limit,
        (fetchTransactionsFromBlockchain env address limit).length ≤ limit)
    ∧ (∀ env address limit,
        (fetchTransactionsFromBlockchain env address limit).Pairwise
          (fun a b => b.timestamp ≤ a.timestamp)) := by
  refine ⟨?_, ?_, ?_, ?_⟩
  · intro apiKey outcome limit
    cases apiKey with
    | none => simp [fetchTransactionsFromEtherscan]
    | some k =>
      cases outcome with
      | error e => simp [fetchTransactionsFromEtherscan]
      | ok data =>
        by_cases hz : data.statusIsZero = true
        · simp [fetchTransactionsFromEtherscan, hz]
        · cases hres : data.result with
          | stringResult s => simp [fetchTransactionsFromEtherscan, hz, hres]
          | absent => simp [fetchTransactionsFromEtherscan, hz, hres]
          | listResult txs =>
            by_cases he : txs.isEmpty
            · simp [fetchTransactionsFromEtherscan, hz, hres, he]
            · have hval : fetchTransactionsFromEtherscan (some k) (.ok data) limit
                  = (txs.take limit).map mapEtherscanTx := by
                simp [fetchTransactionsFromEtherscan, hz, hres, he]
              rw [hval, List.length_map, List.length_take]
              omega
  · intro apiKey outcome limit hsort
    cases apiKey with
    | none => simp [fetchTransactionsFromEtherscan]
    | some k =>
      cases outcome with
      | error e => simp [fetchTransactionsFromEtherscan]
      | ok data =>
        by_cases hz : data.statusIsZero = true
        · simp [fetchTransactionsFromEtherscan, hz]
        · cases hres : data.result with
          | stringResult s => simp [fetchTransactionsFromEtherscan, hz, hres]
          | absent => simp [fetchTransactionsFromEtherscan, hz, hres]
          | listResult txs =>
            by_cases he : txs.isEmpty
            · simp [fetchTransactionsFromEtherscan, hz, hres, he]
            · have hval : fetchTransactionsFromEtherscan (some k) (.ok data) limit
                  = (txs.take limit).map mapEtherscanTx := by
                simp [fetchTransactionsFromEtherscan, hz, hres, he]
              rw [hval, List.pairwise_map]
              exact (hsort data txs rfl hres).sublist (List.take_sublist limit txs)
  · intro env address limit
    cases hbn : env.blockNumberOutcome with
    | error e => simp [fetchTransactionsFromBlockchain, hbn]
    | ok cb =>
      simp only [fetchTransactionsFromBlockchain, hbn]
      rw [(sortByTimestampDesc_perm _).length_eq]
      exact scanBlocksLoop_length env address limit cb blockOffsets [] (by simp)
  · intro env address limit
    cases hbn : env.blockNumberOutcome with
    | error e => simp [fetchTransactionsFromBlockchain, hbn]
    | ok cb =>
      simp only [fetchTransactionsFromBlockchain, hbn]
      exact sortByTimestampDesc_sorted _

/-- C9 witness: the indexer fetch applied to a concrete descending
response is sorted newest-first. -/
theorem fetchers_limit_and_order_witness :
    (fetchTransactionsFromEtherscan (some "key") (.ok testEtherscanData) 50).Pairwise
      (fun a b => b.timestamp ≤ a.timestamp) := by
  apply fetchers_limit_and_order.2.1 (some "key") (.ok testEtherscanData) 50
  intro data txs h1 h2
  cases h1
  cases h2
  decide

/-- C10: the block step evaluates to 5, the scan visits exactly the
1000 offsets 0, 5, ..., 4995 below the current block, and every
returned transaction comes from a block at one of those offsets — a
block at a non-multiple-of-5 offset is never the source of a result. -/
theorem blockScan_step_five :
    blockStep = 5
    ∧ blockOffsets.length = 1000
    ∧ (∀ i ∈ blockOffsets, i % 5 = 0 ∧ i < 5000)
    ∧ (∀ env address limit cb tx,
        env.blockNumberOutcome = .ok cb →
        tx ∈ fetchTransactionsFromBlockchain env address limit →
        ∃ k : Nat, k < 1000 ∧ tx.blockNumber = cb - 5 * (k : Int)) := by
  have hstep : blockStep = 5 := by decide
  have hcount : (maxBlocksToCheck + blockStep - 1) / blockStep = 1000 := by decide
  refine ⟨hstep, ?_, ?_, ?_⟩
  · rw [blockOffsets, List.length_range', hcount]
  · intro i hi
    rw [blockOffsets, hcount, hstep] at hi
    rcases List.mem_range'.mp hi with ⟨k, hk, hik⟩
    constructor
    · omega
    · omega
  · intro env address limit cb tx hbn hmem
    simp only [fetchTransactionsFromBlockchain, hbn] at hmem
    have hmem2 : tx ∈ scanBlocksLoop env address limit cb blockOffsets [] :=
      (sortByTimestampDesc_perm _).mem_iff.mp hmem
    rcases scanBlocksLoop_blockNumber env address limit cb blockOffsets [] tx hmem2
      with hin | ⟨i, hi, hbnum⟩
    · exact absurd hin (List.not_mem_nil tx)
    · rw [blockOffsets, hcount, hstep] at hi
      rcases List.mem_range'.mp hi with ⟨k, hk, hik⟩
      refine ⟨k, hk, ?_⟩
      rw [hbnum, hik]
      push_cast
      ring

/-- C10 witness: in a concrete scan from block 100, the returned
transaction sits at a multiple-of-5 offset. -/
theorem blockScan_step_five_witness :
    ∃ k : Nat, k < 1000 ∧ fxScanTx.blockNumber = 100 - 5 * (k : Int) := by
  exact blockScan_step_five.2.2.2 testScanEnv "0xaa" 1 100 fxScanTx rfl (by decide)

end CryptoTracker
